import Mathlib

/-!
Verification development for the qinglong-bot upload-workflow core.

The TypeScript sources embedded here are:
  * `session_manager.ts` (the richer variant with the cron extractor):
    `extractCronFromContent`, `createSession`, `getSession`, `updateSession`,
    `deleteSession`, `setSessionTimeout`;
  * `file_processor.ts`: the callback handlers (`handleUploadOnly`,
    `handleModifyParamsNo`, `handleConfirmParams`, `handleEditParams`, ...)
    and the JSON-parameter intake `handleJsonParams`;
  * `telegram_bot_client.ts`: the text-message dispatcher `handleCommand`.

The embedding is pure: the mutable `Map` of sessions and the armed
`setTimeout` timers become an explicit `SMState`; `JSON.parse` becomes the
executable `jsonParse`; chat replies and calls to the remote task backend
become a list of `Effect`s; a fallible backend is a `Backend` record whose
fields say whether `uploadFile` / `createCronJob` throw.  All functions are
total, mirroring the fact that the original handlers catch every exception
at their boundary.
-/

set_option maxRecDepth 4096

namespace QinglongBot

/-- Character class of the cron regex `[0-9*/,-]`, written on code points:
digits 48..57, `*` = 42, `/` = 47, `,` = 44, `-` = 45. -/
def isCronChar (c : Char) : Bool :=
  (48 ≤ c.toNat && c.toNat ≤ 57) || c.toNat = 42 || c.toNat = 47 ||
    c.toNat = 44 || c.toNat = 45

/-- The JavaScript `\s` class (also used by `String.prototype.trim`),
written on code points: space, tab, LF, VT, FF, CR, NBSP, Ogham space,
the U+2000..U+200A range, LS, PS, NNBSP, MMSP, ideographic space, BOM. -/
def jsWhitespace (c : Char) : Bool :=
  c.toNat = 32 || c.toNat = 9 || c.toNat = 10 || c.toNat = 11 ||
    c.toNat = 12 || c.toNat = 13 || c.toNat = 160 || c.toNat = 5760 ||
    (8192 ≤ c.toNat && c.toNat ≤ 8202) || c.toNat = 8232 ||
    c.toNat = 8233 || c.toNat = 8239 || c.toNat = 8287 ||
    c.toNat = 12288 || c.toNat = 65279

/-- Join character-list tokens with single spaces (the semantics of
`Array.prototype.join(' ')` on non-empty token lists). -/
def sjoin : List (List Char) → List Char
  | [] => []
  | [t] => t
  | t :: t2 :: ts => t ++ ' ' :: sjoin (t2 :: ts)

/-- Accumulator worker for `splitWs`. -/
def splitWsAcc : List Char → List Char → List (List Char)
  | [], acc => if acc.isEmpty then [] else [acc.reverse]
  | c :: rest, acc =>
    if jsWhitespace c then
      if acc.isEmpty then splitWsAcc rest []
      else acc.reverse :: splitWsAcc rest []
    else splitWsAcc rest (c :: acc)

/-- `str.split(/\s+/)` on a string with no leading whitespace: the
whitespace-separated tokens, in order. -/
def splitWs (l : List Char) : List (List Char) := splitWsAcc l []

/-- `String.prototype.trim`. -/
def jsTrimList (l : List Char) : List Char :=
  ((l.dropWhile jsWhitespace).reverse.dropWhile jsWhitespace).reverse

/-- `String.prototype.trim` on `String`. -/
def jsTrim (s : String) : String := String.mk (jsTrimList s.toList)

/-- One repetition group of the cron regex: `[0-9*/,-]{1,}` followed by a
single literal space, iterated `n` times.  Returns the consumed characters
and the remaining input.  The character class excludes the space, so the
greedy token match is exactly `takeWhile`. -/
def matchReps : Nat → List Char → Option (List Char × List Char)
  | 0, s => some ([], s)
  | Nat.succ n, s =>
    let tok := s.takeWhile isCronChar
    let rest := s.dropWhile isCronChar
    if tok.isEmpty then none
    else
      match rest with
      | ' ' :: rest2 =>
        match matchReps n rest2 with
        | some (c, r) => some (tok ++ ' ' :: c, r)
        | none => none
      | _ => none

/-- The final `([0-9*/,-]){1,}` of the cron regex: a greedy non-empty run
of cron characters. -/
def matchFinal (s : List Char) : Option (List Char) :=
  let tok := s.takeWhile isCronChar
  if tok.isEmpty then none else some tok

/-- Matching the regex `([0-9*/,-]{1,} ){4,5}([0-9*/,-]){1,}` at the head
of the input, with JavaScript backtracking: the `{4,5}` repetition tries
five groups first and falls back to four when the final run cannot match.
Returns the matched substring (the regex `match[0]`). -/
def matchAt (s : List Char) : Option (List Char) :=
  match matchReps 5 s with
  | some (c5, r5) =>
    match matchFinal r5 with
    | some f => some (c5 ++ f)
    | none =>
      match matchReps 4 s with
      | some (c4, r4) =>
        match matchFinal r4 with
        | some f => some (c4 ++ f)
        | none => none
      | none => none
  | none =>
    match matchReps 4 s with
    | some (c4, r4) =>
      match matchFinal r4 with
      | some f => some (c4 ++ f)
      | none => none
    | none => none

/-- Leftmost regex match (`String.prototype.match` without the `g` flag):
try every start position from the left, first success wins. -/
def firstMatch : List Char → Option (List Char)
  | [] => none
  | c :: rest =>
    match matchAt (c :: rest) with
    | some m => some m
    | none => firstMatch rest

/-- `extractCronFromContent` from `session_manager.ts`: match the cron
regex, trim the match, split it on whitespace; with at least 5 parts return
it, dropping the first (seconds) part when there are exactly 6; otherwise
return nothing. -/
def extractCronFromContent (content : String) : Option String :=
  match firstMatch content.toList with
  | none => none
  | some m =>
    let cronExpression := jsTrimList m
    let parts := splitWs cronExpression
    if 5 ≤ parts.length then
      if parts.length = 6 then some (String.mk (sjoin (parts.drop 1)))
      else some (String.mk cronExpression)
    else none

/-- JavaScript values produced by `JSON.parse`.  A number is kept exactly
as `mantissa * 10 ^ exp10`; the workflow only ever tests numbers for
truthiness (`mantissa ≠ 0`) and the parameters it cares about are strings,
so no floating-point rounding is involved. -/
inductive Json where
  | jnull : Json
  | jbool : Bool → Json
  | jnum : Int → Int → Json
  | jstr : String → Json
  | jarr : List Json → Json
  | jobj : List (String × Json) → Json

/-- The opening-brace character, by code point. -/
def braceOpen : Char := Char.ofNat 123

/-- The closing-brace character, by code point. -/
def braceClose : Char := Char.ofNat 125

/-- JavaScript property assignment while building an object literal:
a repeated key overwrites the earlier value in place, a new key is
appended. -/
def insertField (fields : List (String × Json)) (k : String) (v : Json) :
    List (String × Json) :=
  if fields.any (fun p => p.1 = k) then
    fields.map (fun p => if p.1 = k then (k, v) else p)
  else fields ++ [(k, v)]

/-- Property lookup on an object's field list (keys are unique by
construction of `insertField`). -/
def getField : List (String × Json) → String → Option Json
  | [], _ => none
  | (k, v) :: rest, key => if k = key then some v else getField rest key

/-- JavaScript truthiness of a value. -/
def jsTruthy : Json → Bool
  | Json.jnull => false
  | Json.jbool b => b
  | Json.jnum m _ => m != 0
  | Json.jstr s => s ≠ ""
  | Json.jarr _ => true
  | Json.jobj _ => true

/-- Truthiness of `value.key` for a parsed value: property access on a
non-object yields `undefined`, which is falsy. -/
def fieldTruthy (j : Json) (key : String) : Bool :=
  match j with
  | Json.jobj fields =>
    match getField fields key with
    | some v => jsTruthy v
    | none => false
  | _ => false

/-- `value.key` as passed onwards by the code (`undefined` is modelled as
`jnull`; the handlers only reach this after a truthiness check, so the
default never shows through). -/
def jsField (j : Json) (key : String) : Json :=
  match j with
  | Json.jobj fields => (getField fields key).getD Json.jnull
  | _ => Json.jnull

/-- JSON's own whitespace (the only characters `JSON.parse` skips). -/
def jsonWs (c : Char) : Bool :=
  c = ' ' || c = '\t' || c = '\n' || c = '\r'

/-- Skip JSON whitespace. -/
def skipWs (l : List Char) : List Char := l.dropWhile jsonWs

/-- Value of a hexadecimal digit. -/
def hexVal (c : Char) : Option Nat :=
  if 48 ≤ c.toNat && c.toNat ≤ 57 then some (c.toNat - 48)
  else if 97 ≤ c.toNat && c.toNat ≤ 102 then some (c.toNat - 87)
  else if 65 ≤ c.toNat && c.toNat ≤ 70 then some (c.toNat - 55)
  else none

/-- Body of a JSON string literal, after the opening quote: the decoded
characters and the input after the closing quote.  Unknown escapes and
raw control characters are errors, as in `JSON.parse`. -/
def parseStringBody : Nat → List Char → Option (List Char × List Char)
  | 0, _ => none
  | Nat.succ _, [] => none
  | Nat.succ fuel, c :: rest =>
    if c = '"' then some ([], rest)
    else if c = '\\' then
      match rest with
      | [] => none
      | e :: rest2 =>
        if e = '"' then
          (parseStringBody fuel rest2).map (fun p => ('"' :: p.1, p.2))
        else if e = '\\' then
          (parseStringBody fuel rest2).map (fun p => ('\\' :: p.1, p.2))
        else if e = '/' then
          (parseStringBody fuel rest2).map (fun p => ('/' :: p.1, p.2))
        else if e = 'b' then
          (parseStringBody fuel rest2).map (fun p => (Char.ofNat 8 :: p.1, p.2))
        else if e = 'f' then
          (parseStringBody fuel rest2).map (fun p => (Char.ofNat 12 :: p.1, p.2))
        else if e = 'n' then
          (parseStringBody fuel rest2).map (fun p => ('\n' :: p.1, p.2))
        else if e = 'r' then
          (parseStringBody fuel rest2).map (fun p => ('\r' :: p.1, p.2))
        else if e = 't' then
          (parseStringBody fuel rest2).map (fun p => ('\t' :: p.1, p.2))
        else if e = 'u' then
          match rest2 with
          | h1 :: h2 :: h3 :: h4 :: rest3 =>
            match hexVal h1, hexVal h2, hexVal h3, hexVal h4 with
            | some a, some b, some c2, some d =>
              (parseStringBody fuel rest3).map
                (fun p => (Char.ofNat (a * 4096 + b * 256 + c2 * 16 + d) :: p.1, p.2))
            | _, _, _, _ => none
          | _ => none
        else none
    else if c.toNat < 32 then none
    else (parseStringBody fuel rest).map (fun p => (c :: p.1, p.2))

/-- Digit run to a natural number. -/
def digitsToNat (l : List Char) : Nat :=
  l.foldl (fun acc c => acc * 10 + (c.toNat - 48)) 0

/-- Exponent part of a JSON number (and assembly of the final value). -/
def parseExpPart (neg : Bool) (ipart fpart : List Char) (s : List Char) :
    Option ((Int × Int) × List Char) :=
  let mk : Int → List Char → Option ((Int × Int) × List Char) := fun e rest =>
    let mant0 : Nat := digitsToNat (ipart ++ fpart)
    let mant : Int := if neg then -(mant0 : Int) else (mant0 : Int)
    some ((mant, e - (fpart.length : Int)), rest)
  match s with
  | [] => mk 0 []
  | e :: s1 =>
    if e = 'e' || e = 'E' then
      let sgn : Int × List Char :=
        match s1 with
        | '+' :: r => (1, r)
        | '-' :: r => (-1, r)
        | _ => (1, s1)
      let edigits := sgn.2.takeWhile Char.isDigit
      if edigits.isEmpty then none
      else mk (sgn.1 * (digitsToNat edigits : Int)) (sgn.2.dropWhile Char.isDigit)
    else mk 0 (e :: s1)

/-- A JSON number token per the strict JSON grammar: optional minus, an
integer part (`0` or a nonzero-led digit run), optional fraction, optional
exponent.  Returns `(mantissa, exp10)` and the rest of the input. -/
def parseNumber (s : List Char) : Option ((Int × Int) × List Char) :=
  let sgn : Bool × List Char :=
    match s with
    | '-' :: r => (true, r)
    | _ => (false, s)
  match sgn.2 with
  | [] => none
  | d :: tailRest =>
    if !d.isDigit then none
    else
      let ip : List Char × List Char :=
        if d = '0' then (['0'], tailRest)
        else (sgn.2.takeWhile Char.isDigit, sgn.2.dropWhile Char.isDigit)
      match ip.2 with
      | '.' :: s3 =>
        let fpart := s3.takeWhile Char.isDigit
        if fpart.isEmpty then none
        else parseExpPart sgn.1 ip.1 fpart (s3.dropWhile Char.isDigit)
      | _ => parseExpPart sgn.1 ip.1 [] ip.2

mutual

/-- One JSON value, skipping leading whitespace.  The fuel only bounds the
recursion; every recursive call first consumes at least one character, so
`length + 2` fuel is always enough. -/
def parseValue : Nat → List Char → Option (Json × List Char)
  | 0, _ => none
  | Nat.succ fuel, s =>
    match skipWs s with
    | [] => none
    | c :: rest =>
      if c = '"' then
        (parseStringBody fuel rest).map (fun p => (Json.jstr (String.mk p.1), p.2))
      else if c = braceOpen then
        match skipWs rest with
        | [] => none
        | c2 :: rest2 =>
          if c2 = braceClose then some (Json.jobj [], rest2)
          else parseMembers fuel (c2 :: rest2) []
      else if c = '[' then
        match skipWs rest with
        | [] => none
        | c2 :: rest2 =>
          if c2 = ']' then some (Json.jarr [], rest2)
          else parseElems fuel (c2 :: rest2) []
      else if c = 't' then
        match rest with
        | 'r' :: 'u' :: 'e' :: r => some (Json.jbool true, r)
        | _ => none
      else if c = 'f' then
        match rest with
        | 'a' :: 'l' :: 's' :: 'e' :: r => some (Json.jbool false, r)
        | _ => none
      else if c = 'n' then
        match rest with
        | 'u' :: 'l' :: 'l' :: r => some (Json.jnull, r)
        | _ => none
      else
        (parseNumber (c :: rest)).map (fun p => (Json.jnum p.1.1 p.1.2, p.2))

/-- Members of a JSON object, positioned at the first character of a key
(after `{` or a comma).  Duplicate keys overwrite, as in JavaScript. -/
def parseMembers (fuel : Nat) (s : List Char) (acc : List (String × Json)) :
    Option (Json × List Char) :=
  match fuel with
  | 0 => none
  | Nat.succ fuel =>
    match skipWs s with
    | '"' :: rest =>
      match parseStringBody fuel rest with
      | none => none
      | some (keyChars, rest2) =>
        match skipWs rest2 with
        | ':' :: rest3 =>
          match parseValue fuel rest3 with
          | none => none
          | some (v, rest4) =>
            let acc2 := insertField acc (String.mk keyChars) v
            match skipWs rest4 with
            | ',' :: rest5 => parseMembers fuel rest5 acc2
            | c :: rest5 =>
              if c = braceClose then some (Json.jobj acc2, rest5) else none
            | [] => none
        | _ => none
    | _ => none

/-- Elements of a JSON array, positioned at the first character of an
element. -/
def parseElems (fuel : Nat) (s : List Char) (acc : List Json) :
    Option (Json × List Char) :=
  match fuel with
  | 0 => none
  | Nat.succ fuel =>
    match parseValue fuel s with
    | none => none
    | some (v, rest) =>
      match skipWs rest with
      | ',' :: rest2 => parseElems fuel rest2 (acc ++ [v])
      | ']' :: rest2 => some (Json.jarr (acc ++ [v]), rest2)
      | _ => none

end

/-- `JSON.parse`: one value, with only whitespace allowed around it. -/
def jsonParse (s : String) : Option Json :=
  let cs := s.toList
  match parseValue (cs.length + 2) cs with
  | some (v, rest) => if (skipWs rest).isEmpty then some v else none
  | none => none

/-- The four session stages of `FileUploadSession.stage`. -/
inductive Stage where
  | uploaded : Stage
  | create_task : Stage
  | modify_params : Stage
  | confirm_params : Stage
deriving DecidableEq

/-- `{name, command, schedule}` as computed for `defaultParams` (always
strings there). -/
structure TaskParams where
  name : String
  command : String
  schedule : String
deriving DecidableEq

/-- A per-user session.  `modifiedParams` holds whatever object
`JSON.parse` produced (the TypeScript type is a lie at runtime), and
`timeoutId` the identifier of the armed `setTimeout`, if any. -/
structure FileUploadSession where
  fileName : String
  fileContent : String
  stage : Stage
  defaultParams : Option TaskParams
  modifiedParams : Option Json
  timeoutId : Option Nat

/-- An armed, not-yet-fired `setTimeout` whose callback deletes the
session of `userId` and notifies them. -/
structure Timer where
  id : Nat
  userId : Nat
  delayMs : Nat
deriving DecidableEq

/-- The mutable module state of `session_manager.ts`: the `sessions` map
(an association list with unique keys, insertion-ordered like a JS `Map`),
the armed timers of the runtime, and a fresh-timer-id counter. -/
structure SMState where
  sessions : List (Nat × FileUploadSession)
  pending : List Timer
  nextTimerId : Nat

/-- The state at process start. -/
def emptySM : SMState := { sessions := [], pending := [], nextTimerId := 0 }

/-- `Map.prototype.get`. -/
def mapGet : List (Nat × FileUploadSession) → Nat → Option FileUploadSession
  | [], _ => none
  | (k, v) :: rest, key => if k = key then some v else mapGet rest key

/-- `Map.prototype.set`: overwrite in place, else append. -/
def mapSet : List (Nat × FileUploadSession) → Nat → FileUploadSession →
    List (Nat × FileUploadSession)
  | [], key, v => [(key, v)]
  | (k, w) :: rest, key, v =>
    if k = key then (key, v) :: rest else (k, w) :: mapSet rest key v

/-- `Map.prototype.delete` (the removal part). -/
def mapDelete (m : List (Nat × FileUploadSession)) (key : Nat) :
    List (Nat × FileUploadSession) :=
  m.filter (fun p => p.1 != key)

/-- `fileName.split('.')` (split on a literal character, JS semantics:
an empty token before/after/between separators is kept). -/
def jsSplitChar (sep : Char) : List Char → List (List Char)
  | [] => [[]]
  | c :: rest =>
    if c = sep then [] :: jsSplitChar sep rest
    else
      match jsSplitChar sep rest with
      | t :: ts => (c :: t) :: ts
      | [] => [[c]]

/-- `createSession` from `session_manager.ts`: extract a schedule from the
file content (falling back to the fixed daily expression), build a fresh
session in stage `uploaded` with the computed `defaultParams`, and store
it under the user's id, replacing any previous session object. -/
def createSession (st : SMState) (userId : Nat) (fileName fileContent : String) :
    SMState × FileUploadSession :=
  let cronFromContent := extractCronFromContent fileContent
  let defaultSchedule := cronFromContent.getD ("0 0 * * *")
  let session : FileUploadSession :=
    { fileName := fileName
      fileContent := fileContent
      stage := Stage.uploaded
      defaultParams := some
        { name := String.mk ((jsSplitChar '.' fileName.toList).headD [])
          command := "task " ++ fileName
          schedule := defaultSchedule }
      modifiedParams := none
      timeoutId := none }
  ({ st with sessions := mapSet st.sessions userId session }, session)

/-- `getSession`: a pure lookup. -/
def getSession (st : SMState) (userId : Nat) : Option FileUploadSession :=
  mapGet st.sessions userId

/-- The `Partial<FileUploadSession>` updates that the workflow actually
passes to `updateSession` (only `stage` and `modifiedParams` ever occur in
the source). -/
structure SessionUpdates where
  stage : Option Stage
  modifiedParams : Option Json

/-- `updateSession`: `Object.assign` of the given fields into the stored
session when it exists; reported no-op otherwise. -/
def updateSession (st : SMState) (userId : Nat) (upd : SessionUpdates) : SMState :=
  match mapGet st.sessions userId with
  | none => st
  | some s =>
    let s2 : FileUploadSession :=
      { s with
        stage := upd.stage.getD s.stage
        modifiedParams :=
          match upd.modifiedParams with
          | some j => some j
          | none => s.modifiedParams }
    { st with sessions := mapSet st.sessions userId s2 }

/-- `deleteSession`: `clearTimeout` of the session's recorded timer when
present, then removal from the map.  Total (never throws), and a plain
no-op on a missing key. -/
def deleteSession (st : SMState) (userId : Nat) : SMState :=
  let pending2 :=
    match mapGet st.sessions userId with
    | some s =>
      match s.timeoutId with
      | some tid => st.pending.filter (fun tm => tm.id != tid)
      | none => st.pending
    | none => st.pending
  { sessions := mapDelete st.sessions userId
    pending := pending2
    nextTimerId := st.nextTimerId }

/-- `setSessionTimeout`: no-op without a session; otherwise `clearTimeout`
of the session's recorded timer, then `setTimeout` of a fresh one whose id
is stored back into the session. -/
def setSessionTimeout (st : SMState) (userId : Nat) (timeoutMs : Nat) : SMState :=
  match mapGet st.sessions userId with
  | none => st
  | some session =>
    let pending2 :=
      match session.timeoutId with
      | some tid => st.pending.filter (fun tm => tm.id != tid)
      | none => st.pending
    let newId := st.nextTimerId
    { sessions := mapSet st.sessions userId { session with timeoutId := some newId }
      pending := pending2 ++ [{ id := newId, userId := userId, delayMs := timeoutMs }]
      nextTimerId := newId + 1 }

/-- A pending timer elapses: it stops being pending and its callback runs
`deleteSession(userId)` followed by the notification callback.  The
returned flag records whether the notification was invoked. -/
def fireTimer (st : SMState) (tid : Nat) : SMState × Bool :=
  match st.pending.find? (fun tm => tm.id = tid) with
  | none => (st, false)
  | some tm =>
    let st2 := { st with pending := st.pending.filter (fun x => x.id != tid) }
    (deleteSession st2 tm.userId, true)

/-- Bookkeeping well-formedness of the timer state: pending timer ids and
recorded `timeoutId`s are below the fresh counter, and every pending timer
is the one its user's session records.  `createSession` over a session
with an armed timer is exactly the operation that breaks the last
clause. -/
def WFb (st : SMState) : Bool :=
  st.pending.all (fun tm => tm.id < st.nextTimerId) &&
  st.sessions.all (fun p =>
    match p.2.timeoutId with
    | some tid => tid < st.nextTimerId
    | none => true) &&
  st.pending.all (fun tm =>
    match mapGet st.sessions tm.userId with
    | some s => s.timeoutId = some tm.id
    | none => false)

/-- Observable side effects of a handler, in order: chat replies, the two
task-backend calls, and the hand-off to the ordinary command processor
(`extractCommandAndContent`/`processCommand` live outside this core). -/
inductive Effect where
  | reply : String → Effect
  | replyParams : String → Json → Effect
  | uploadFile : String → String → Effect
  | createCronJob : Json → Json → Json → Effect
  | ordinaryCommand : String → Effect

/-- Behaviour of the remote task backend for the duration of one handler:
`none` means the call succeeds, `some e` that it throws with message
`e`. -/
structure Backend where
  uploadError : Option String
  cronError : Option String

/-- The exact reply strings of `file_processor.ts`. -/
def msgUploading : String := "正在上传脚本到青龙面板..."

/-- Progress message before `createCronJob`. -/
def msgCreatingJob : String := "正在创建定时任务..."

/-- Success reply of the upload-only path. -/
def msgUploadOk (fn : String) : String := "✅ 脚本上传成功！\n\n文件名：" ++ fn

/-- Failure reply of the upload-only path. -/
def msgUploadFail (e : String) : String := "❌ 脚本上传失败：" ++ e

/-- Generic failure reply of the task-creating paths. -/
def msgOpFail (e : String) : String := "❌ 操作失败：" ++ e

/-- Reply when `defaultParams` is missing. -/
def msgNoDefault : String := "❌ 默认参数不存在"

/-- Reply when `modifiedParams` is missing. -/
def msgNoModified : String := "❌ 修改后的参数不存在，请重新操作"

/-- Reply when a parameter object lacks a required field. -/
def msgBadParams : String := "❌ 参数格式错误，必须包含 name、command 和 schedule 字段"

/-- Success reply after creating the job from string parameters. -/
def msgTaskOk (name command schedule : String) : String :=
  "✅ 定时任务创建成功！\n\n任务名称：" ++ name ++ "\n执行命令：" ++ command ++
    "\n执行时间：" ++ schedule

/-- Header of the modify-or-not prompt (the body renders `defaultParams`). -/
def msgAskModify : String := "是否修改默认参数？"

/-- Header of the editable-template prompt. -/
def msgEditTemplate : String := "请复制以下参数模板，修改后发送给我"

/-- Header of the re-edit prompt. -/
def msgReEdit : String := "请修改以下参数并重新发送"

/-- Header of the confirmation prompt. -/
def msgConfirmAsk : String := "确认使用以下参数创建定时任务？"

/-- Header of the success reply that renders the confirmed object. -/
def msgTaskDone : String := "✅ 定时任务创建成功！"

/-- Reply of the session-timeout callback. -/
def msgTimeout : String := "⏰ 参数修改超时，会话已结束。请重新上传文件。"

/-- Reply of `handleEndSession`. -/
def msgSessionEnded : String := "会话已结束。"

/-- Reply of `handleCancelCreate`. -/
def msgCancelled : String := "❌ 已取消创建任务，会话已结束。"

/-- `defaultParams` as the object `JSON.stringify` renders in prompts. -/
def paramsToJson : Option TaskParams → Json
  | some p => Json.jobj
      [("name", Json.jstr p.name), ("command", Json.jstr p.command),
       ("schedule", Json.jstr p.schedule)]
  | none => Json.jnull

/-- `handleCreateTask`: move to stage `create_task` and show the default
parameters with a modify-yes/no keyboard. -/
def handleCreateTask (st : SMState) (userId : Nat) (session : FileUploadSession) :
    SMState × List Effect :=
  (updateSession st userId { stage := some Stage.create_task, modifiedParams := none },
   [Effect.replyParams msgAskModify (paramsToJson session.defaultParams)])

/-- `handleUploadOnly`: upload the script; only on success delete the
session and report success, otherwise the catch block reports the error
and the session stays. -/
def handleUploadOnly (be : Backend) (st : SMState) (userId : Nat)
    (session : FileUploadSession) : SMState × List Effect :=
  match be.uploadError with
  | some e =>
    (st, [Effect.reply msgUploading,
          Effect.uploadFile session.fileName session.fileContent,
          Effect.reply (msgUploadFail e)])
  | none =>
    (deleteSession st userId,
     [Effect.reply msgUploading,
      Effect.uploadFile session.fileName session.fileContent,
      Effect.reply (msgUploadOk session.fileName)])

/-- `handleEndSession`: delete the session and say goodbye. -/
def handleEndSession (st : SMState) (userId : Nat) : SMState × List Effect :=
  (deleteSession st userId, [Effect.reply msgSessionEnded])

/-- `handleModifyParamsYes`: move to stage `modify_params`, send the
editable template, and arm the 120-second expiry. -/
def handleModifyParamsYes (st : SMState) (userId : Nat)
    (session : FileUploadSession) : SMState × List Effect :=
  let st2 := updateSession st userId
    { stage := some Stage.modify_params, modifiedParams := none }
  (setSessionTimeout st2 userId 120000,
   [Effect.replyParams msgEditTemplate (paramsToJson session.defaultParams)])

/-- `handleModifyParamsNo`: upload the script and register the job with
`defaultParams`; the session is deleted only after both calls succeed, a
throw anywhere lands in the catch block with the session intact. -/
def handleModifyParamsNo (be : Backend) (st : SMState) (userId : Nat)
    (session : FileUploadSession) : SMState × List Effect :=
  match session.defaultParams with
  | none => (st, [Effect.reply msgNoDefault])
  | some p =>
    match be.uploadError with
    | some e =>
      (st, [Effect.reply msgUploading,
            Effect.uploadFile session.fileName session.fileContent,
            Effect.reply (msgOpFail e)])
    | none =>
      match be.cronError with
      | some e =>
        (st, [Effect.reply msgUploading,
              Effect.uploadFile session.fileName session.fileContent,
              Effect.reply msgCreatingJob,
              Effect.createCronJob (Json.jstr p.name) (Json.jstr p.command)
                (Json.jstr p.schedule),
              Effect.reply (msgOpFail e)])
      | none =>
        (deleteSession st userId,
         [Effect.reply msgUploading,
          Effect.uploadFile session.fileName session.fileContent,
          Effect.reply msgCreatingJob,
          Effect.createCronJob (Json.jstr p.name) (Json.jstr p.command)
            (Json.jstr p.schedule),
          Effect.reply (msgTaskOk p.name p.command p.schedule)])

/-- `handleConfirmParams`: refuse without `modifiedParams`, re-validate
the three required fields, then upload and register with the confirmed
object; the session is deleted only after both backend calls succeed. -/
def handleConfirmParams (be : Backend) (st : SMState) (userId : Nat)
    (session : FileUploadSession) : SMState × List Effect :=
  match session.modifiedParams with
  | none => (st, [Effect.reply msgNoModified])
  | some params =>
    if !(fieldTruthy params ("name") && fieldTruthy params ("command") &&
         fieldTruthy params ("schedule")) then
      (st, [Effect.reply msgBadParams])
    else
      match be.uploadError with
      | some e =>
        (st, [Effect.reply msgUploading,
              Effect.uploadFile session.fileName session.fileContent,
              Effect.reply (msgOpFail e)])
      | none =>
        match be.cronError with
        | some e =>
          (st, [Effect.reply msgUploading,
                Effect.uploadFile session.fileName session.fileContent,
                Effect.reply msgCreatingJob,
                Effect.createCronJob (jsField params ("name"))
                  (jsField params ("command")) (jsField params ("schedule")),
                Effect.reply (msgOpFail e)])
        | none =>
          (deleteSession st userId,
           [Effect.reply msgUploading,
            Effect.uploadFile session.fileName session.fileContent,
            Effect.reply msgCreatingJob,
            Effect.createCronJob (jsField params ("name"))
              (jsField params ("command")) (jsField params ("schedule")),
            Effect.replyParams msgTaskDone params])

/-- `handleEditParams`: refuse without `modifiedParams`, otherwise go back
to stage `modify_params` and re-show the current candidate object. -/
def handleEditParams (st : SMState) (userId : Nat)
    (session : FileUploadSession) : SMState × List Effect :=
  match session.modifiedParams with
  | none => (st, [Effect.reply msgNoModified])
  | some params =>
    (updateSession st userId { stage := some Stage.modify_params, modifiedParams := none },
     [Effect.replyParams msgReEdit params])

/-- `handleCancelCreate`: delete the session and confirm cancellation. -/
def handleCancelCreate (st : SMState) (userId : Nat) : SMState × List Effect :=
  (deleteSession st userId, [Effect.reply msgCancelled])

/-- `text.startsWith(c)` for a single character. -/
def startsWithChar (s : String) (c : Char) : Bool :=
  match s.toList with
  | [] => false
  | x :: _ => x = c

/-- `text.endsWith(c)` for a single character. -/
def endsWithChar (s : String) (c : Char) : Bool :=
  match s.toList.getLast? with
  | some x => x = c
  | none => false

/-- `handleJsonParams` from `file_processor.ts`.  Result: the new state,
the emitted effects, and the boolean the handler returns (`true` when the
message was consumed as parameter input).  A missing user id, missing
session, wrong stage, empty text, non-brace-shaped text, or a
`JSON.parse` throw (caught by the handler's catch block) all yield
`false` with nothing sent and nothing changed. -/
def handleJsonParams (st : SMState) (userId : Nat) (text : String) :
    SMState × List Effect × Bool :=
  if userId = 0 then (st, [], false)
  else
    match mapGet st.sessions userId with
    | none => (st, [], false)
    | some session =>
      if session.stage ≠ Stage.modify_params then (st, [], false)
      else if text = "" then (st, [], false)
      else
        let trimmedText := jsTrim text
        if !(startsWithChar trimmedText braceOpen &&
             endsWithChar trimmedText braceClose) then (st, [], false)
        else
          match jsonParse trimmedText with
          | none => (st, [], false)
          | some params =>
            if !(fieldTruthy params ("name") && fieldTruthy params ("command") &&
                 fieldTruthy params ("schedule")) then
              (st, [Effect.reply msgBadParams], true)
            else
              (updateSession st userId
                 { stage := some Stage.confirm_params, modifiedParams := some params },
               [Effect.replyParams msgConfirmAsk params], true)

/-- `handleCommand` from `telegram_bot_client.ts`: run `handleJsonParams`
first; when it does not consume the text, fall through to the ordinary
command processor (modelled as the single external effect
`ordinaryCommand`, since `command_processor.ts` is outside this core). -/
def handleCommand (st : SMState) (userId : Nat) (text : String) :
    SMState × List Effect :=
  let r := handleJsonParams st userId text
  if r.2.2 then (r.1, r.2.1)
  else (r.1, r.2.1 ++ [Effect.ordinaryCommand text])

/-- A non-empty token made only of cron characters. -/
def CronTokB (t : List Char) : Bool := !t.isEmpty && t.all isCronChar

/-- Declarative characterisation of a position where the cron regex can
match: four non-empty cron tokens, each terminated by a single space,
followed by at least one more cron character. -/
def MatchShape (s : List Char) : Prop :=
  ∃ t1 t2 t3 t4 c rest,
    CronTokB t1 = true ∧ CronTokB t2 = true ∧ CronTokB t3 = true ∧
    CronTokB t4 = true ∧ isCronChar c = true ∧
    s = t1 ++ ' ' :: (t2 ++ ' ' :: (t3 ++ ' ' :: (t4 ++ ' ' :: (c :: rest))))

/-- Whether `l` has a run of at least five consecutive tokens that are all
cron-charactered. -/
def hasCronRun5 : List (List Char) → Bool
  | [] => false
  | t :: rest =>
    (((t :: rest).take 5).length == 5 &&
      ((t :: rest).take 5).all (fun tok => tok.all isCronChar)) ||
    hasCronRun5 rest

/-- Follows the claim's words, for comparison with the source's
`extractCronFromContent`: the text contains a run of at least 5
whitespace-separated tokens drawn from digits, `*`, `/`, `,`, `-`. -/
def claimCronRunExists (content : String) : Bool :=
  hasCronRun5 (splitWs (jsTrimList content.toList))

/-- Follows the claim's words, for comparison with the source's
`createSession`: the filename without its extension, i.e. everything
before the last dot (the filename itself when it has no dot). -/
def fileNameWithoutExtension (fn : String) : String :=
  let r := fn.toList.reverse
  if r.any (fun c => c = '.') then
    String.mk (((r.dropWhile (fun c => c ≠ '.')).drop 1).reverse)
  else fn

/-- Fixture: the state after user 7 uploads `a.py` and the 120-second
expiry is armed (timer id 0 pending). -/
def stArmed : SMState :=
  setSessionTimeout (createSession emptySM 7 ("a.py") ("x")).1 7 120000

/-- Fixture: the session stored in `stArmed`. -/
def sessArmed : FileUploadSession :=
  { fileName := "a.py", fileContent := "x", stage := Stage.uploaded
    defaultParams := some
      { name := "a", command := "task a.py", schedule := "0 0 * * *" }
    modifiedParams := none, timeoutId := some 0 }

/-- Fixture: a session waiting for JSON parameters. -/
def sessModify : FileUploadSession :=
  { fileName := "demo.py", fileContent := "", stage := Stage.modify_params
    defaultParams := some
      { name := "demo", command := "task demo.py", schedule := "0 0 * * *" }
    modifiedParams := none, timeoutId := none }

/-- Fixture: a store holding only `sessModify` for user 7. -/
def stModify : SMState :=
  { sessions := [(7, sessModify)], pending := [], nextTimerId := 0 }

/-- Fixture: a fully-populated candidate parameter object. -/
def objW : Json :=
  Json.jobj [("name", Json.jstr ("n")), ("command", Json.jstr ("c")),
             ("schedule", Json.jstr ("s"))]

/-- Fixture: a candidate object missing `command` and `schedule`. -/
def objBad : Json := Json.jobj [("name", Json.jstr ("x"))]

/-- Fixture: a session awaiting confirmation of `objW`. -/
def sessConfirm : FileUploadSession :=
  { sessModify with stage := Stage.confirm_params, modifiedParams := some objW }

/-- Fixture: a store holding only `sessConfirm` for user 7. -/
def stConfirm : SMState :=
  { sessions := [(7, sessConfirm)], pending := [], nextTimerId := 0 }

/-- Fixture: a confirmation-stage session whose candidate was never set. -/
def sessNoCand : FileUploadSession :=
  { sessModify with stage := Stage.confirm_params, modifiedParams := none }

/-- Fixture: a confirmation-stage session with an incomplete candidate. -/
def sessBadCand : FileUploadSession :=
  { sessModify with stage := Stage.confirm_params, modifiedParams := some objBad }

/-- Fixture: a backend whose `uploadFile` throws. -/
def beFailUpload : Backend := { uploadError := some ("boom"), cronError := none }

/-- Fixture: a backend whose `createCronJob` throws. -/
def beFailCron : Backend := { uploadError := none, cronError := some ("bad cron") }

/-- Fixture: a backend where both calls succeed. -/
def beOk : Backend := { uploadError := none, cronError := none }

section Lemmas

/-- Lookup after `Map.set` of the same key. -/
theorem mapGet_mapSet_self (m : List (Nat × FileUploadSession)) (k : Nat)
    (v : FileUploadSession) : mapGet (mapSet m k v) k = some v := by
  induction m with
  | nil => simp [mapSet, mapGet]
  | cons p rest ih =>
    by_cases h : p.1 = k
    · simp [mapSet, h, mapGet]
    · simpa [mapSet, h, mapGet] using ih

/-- Lookup after removal of the same key. -/
theorem mapGet_mapDelete_self (m : List (Nat × FileUploadSession)) (k : Nat) :
    mapGet (mapDelete m k) k = none := by
  induction m with
  | nil => simp [mapDelete, mapGet]
  | cons p rest ih =>
    by_cases h : p.1 = k
    · simpa [mapDelete, h] using ih
    · simpa [mapDelete, mapGet, h] using ih

/-- A key that is absent is untouched by removal. -/
theorem mapDelete_absent (m : List (Nat × FileUploadSession)) (k : Nat)
    (h : mapGet m k = none) : mapDelete m k = m := by
  induction m with
  | nil => simp [mapDelete]
  | cons p rest ih =>
    by_cases hp : p.1 = k
    · simp [mapGet, hp] at h
    · simp only [mapGet, hp, if_neg hp] at h
      simpa [mapDelete, hp] using ih h

/-- A successful lookup means membership. -/
theorem mapGet_mem (m : List (Nat × FileUploadSession)) (k : Nat)
    (v : FileUploadSession) (h : mapGet m k = some v) : (k, v) ∈ m := by
  induction m with
  | nil => simp [mapGet] at h
  | cons p rest ih =>
    by_cases hp : p.1 = k
    · simp only [mapGet, if_pos hp] at h
      obtain rfl := Option.some.inj h
      obtain ⟨a, b⟩ := p
      simp only at hp
      subst hp
      exact List.mem_cons_self _ _
    · simp only [mapGet, if_neg hp] at h
      exact List.mem_cons_of_mem _ (ih h)

/-- `deleteSession` on an absent user changes nothing. -/
theorem deleteSession_absent (st : SMState) (uid : Nat)
    (h : mapGet st.sessions uid = none) : deleteSession st uid = st := by
  unfold deleteSession
  rw [h, mapDelete_absent _ _ h]

/-- The head of a character split is the prefix before the first
separator. -/
theorem jsSplitChar_headD (sep : Char) (l : List Char) :
    (jsSplitChar sep l).headD [] = l.takeWhile (fun c => c ≠ sep) := by
  induction l with
  | nil => simp [jsSplitChar]
  | cons c rest ih =>
    by_cases h : c = sep
    · simp [jsSplitChar, h, List.takeWhile]
    · simp only [jsSplitChar, if_neg h]
      cases hrec : jsSplitChar sep rest with
      | nil => cases rest with
        | nil => simp [jsSplitChar] at hrec
        | cons d rest2 =>
          exfalso
          by_cases hd : d = sep <;> simp [jsSplitChar, hd] at hrec
          cases hsplit : jsSplitChar sep rest2 <;> simp [hsplit] at hrec
      | cons t ts =>
        rw [hrec] at ih
        simp only [List.headD_cons] at ih
        simp only [ne_eq, decide_not] at ih ⊢
        simp [List.takeWhile, h, ← ih]

/-- First clause of `WFb`: pending timer ids are below the counter. -/
theorem WFb_pending_lt (st : SMState) (h : WFb st = true) :
    ∀ tm ∈ st.pending, tm.id < st.nextTimerId := by
  unfold WFb at h
  obtain ⟨⟨h1, _⟩, _⟩ := by simpa [Bool.and_eq_true] using h
  exact h1

/-- Second clause of `WFb`: recorded `timeoutId`s are below the counter. -/
theorem WFb_session_lt (st : SMState) (h : WFb st = true) :
    ∀ p ∈ st.sessions, ∀ tid, p.2.timeoutId = some tid → tid < st.nextTimerId := by
  unfold WFb at h
  obtain ⟨⟨_, h2⟩, _⟩ := by simpa [Bool.and_eq_true] using h
  intro p hp tid htid
  have h4 := h2 p.1 p.2 hp
  rw [htid] at h4
  simpa using h4

/-- Third clause of `WFb`: every pending timer is the one recorded by its
user's session. -/
theorem WFb_pending_recorded (st : SMState) (h : WFb st = true) :
    ∀ tm ∈ st.pending, ∃ s, mapGet st.sessions tm.userId = some s ∧
      s.timeoutId = some tm.id := by
  unfold WFb at h
  obtain ⟨_, h3⟩ := by simpa [Bool.and_eq_true] using h
  intro tm hm
  have h4 := h3 tm hm
  cases hg : mapGet st.sessions tm.userId with
  | none => rw [hg] at h4; cases h4
  | some s2 =>
    rw [hg] at h4
    exact ⟨s2, rfl, of_decide_eq_true h4⟩

/-- A cron token is non-empty. -/
theorem cronTok_ne_nil (t : List Char) (h : CronTokB t = true) : t ≠ [] := by
  intro hnil
  subst hnil
  simp [CronTokB] at h

/-- Characters of a cron token are cron characters. -/
theorem cronTok_all (t : List Char) (h : CronTokB t = true) :
    ∀ c ∈ t, isCronChar c = true := by
  have h2 : t.all isCronChar = true := by
    simp only [CronTokB, Bool.and_eq_true] at h
    exact h.2
  exact fun c hc => List.all_eq_true.mp h2 c hc

/-- Builder for `CronTokB`. -/
theorem cronTok_intro (t : List Char) (hne : t ≠ [])
    (hall : ∀ c ∈ t, isCronChar c = true) : CronTokB t = true := by
  cases t with
  | nil => exact absurd rfl hne
  | cons c r =>
    simp only [CronTokB, List.isEmpty_cons, Bool.not_false, Bool.true_and]
    exact List.all_eq_true.mpr hall

/-- The space is not a cron character. -/
theorem isCron_space : isCronChar ' ' = false := by decide

/-- Cron characters are not JavaScript whitespace. -/
theorem cron_not_ws (c : Char) (h : isCronChar c = true) :
    jsWhitespace c = false := by
  simp only [isCronChar, Bool.or_eq_true, Bool.and_eq_true, decide_eq_true_eq] at h
  simp only [jsWhitespace, Bool.or_eq_true, Bool.and_eq_true, decide_eq_true_eq,
    Bool.or_eq_false_iff, Bool.and_eq_false_iff, decide_eq_false_iff_not]
  omega

/-- Maximal munch over an appended token: when every character of `t`
satisfies `p` and `x` does not, `takeWhile`/`dropWhile` split exactly at
`x`. -/
theorem takeWhile_append_spec (p : Char → Bool) (t : List Char) (x : Char)
    (r : List Char) (ht : ∀ c ∈ t, p c = true) (hx : p x = false) :
    (t ++ x :: r).takeWhile p = t ∧ (t ++ x :: r).dropWhile p = x :: r := by
  induction t with
  | nil => simp [List.takeWhile_cons, List.dropWhile_cons, hx]
  | cons a t ih =>
    have ha : p a = true := ht a (List.mem_cons_self a t)
    have ih2 := ih (fun c hc => ht c (List.mem_cons_of_mem a hc))
    simp [List.takeWhile_cons, List.dropWhile_cons, ha, ih2.1, ih2.2]

/-- Appending behind the space-interleaved fold just threads the rest. -/
theorem foldr_space_append (toks : List (List Char)) (rest : List Char) :
    (toks.foldr (fun t acc => t ++ ' ' :: acc) []) ++ rest
      = toks.foldr (fun t acc => t ++ ' ' :: acc) rest := by
  induction toks with
  | nil => simp
  | cons t ts ih => simp [ih]

/-- `sjoin` on a cons with a non-empty tail. -/
theorem sjoin_cons_ne (t : List Char) (l : List (List Char)) (h : l ≠ []) :
    sjoin (t :: l) = t ++ ' ' :: sjoin l := by
  cases l with
  | nil => exact absurd rfl h
  | cons t2 ts => rfl

/-- The space-interleaved fold with a final token is a space join. -/
theorem foldr_sjoin (toks : List (List Char)) (f : List Char) :
    (toks.foldr (fun t acc => t ++ ' ' :: acc) []) ++ f = sjoin (toks ++ [f]) := by
  induction toks with
  | nil => simp [sjoin]
  | cons t ts ih =>
    have hne : ts ++ [f] ≠ [] := by simp
    simp only [List.foldr_cons, List.cons_append, sjoin_cons_ne t (ts ++ [f]) hne,
      ← ih]
    simp

/-- A list of length four is an explicit four-element list. -/
theorem list_len_four (l : List (List Char)) (h : l.length = 4) :
    ∃ a b c d, l = [a, b, c, d] := by
  match l, h with
  | [a, b, c, d], _ => exact ⟨a, b, c, d, rfl⟩

/-- A list of length five is an explicit five-element list. -/
theorem list_len_five (l : List (List Char)) (h : l.length = 5) :
    ∃ a b c d e, l = [a, b, c, d, e] := by
  match l, h with
  | [a, b, c, d, e], _ => exact ⟨a, b, c, d, e, rfl⟩

/-- Soundness of the repetition matcher: a success consumes `n` non-empty
cron tokens, each followed by a single space. -/
theorem matchReps_sound (n : Nat) :
    ∀ s c r, matchReps n s = some (c, r) →
      ∃ toks : List (List Char), toks.length = n ∧
        (∀ t ∈ toks, CronTokB t = true) ∧
        c = toks.foldr (fun t acc => t ++ ' ' :: acc) [] ∧ s = c ++ r := by
  induction n with
  | zero =>
    intro s c r h
    simp only [matchReps, Option.some.injEq, Prod.mk.injEq] at h
    exact ⟨[], rfl, by simp, by simp [h.1.symm], by simp [h.1.symm, h.2.symm]⟩
  | succ n ih =>
    intro s c r h
    simp only [matchReps] at h
    split at h
    · cases h
    · rename_i he
      split at h
      · rename_i rest2 hd
        split at h
        · rename_i c2 r2 hrec
          simp only [Option.some.injEq, Prod.mk.injEq] at h
          obtain ⟨hc, hr⟩ := h
          obtain ⟨toks, hlen, hall, hc2, hs2⟩ := ih rest2 c2 r2 hrec
          refine ⟨s.takeWhile isCronChar :: toks, by simp [hlen], ?_, ?_, ?_⟩
          · intro t ht
            rcases List.mem_cons.mp ht with h1 | h1
            · subst h1
              refine cronTok_intro _ ?_ ?_
              · intro hnil
                rw [hnil] at he
                exact he rfl
              · exact fun ch hch => List.mem_takeWhile_imp hch
            · exact hall t h1
          · simp [← hc, hc2]
          · have hsplit := List.takeWhile_append_dropWhile (p := isCronChar) (l := s)
            rw [← hc, ← hr]
            conv_lhs => rw [← hsplit, hd, hs2]
            simp
        · cases h
      · cases h

/-- Reduction of the repetition matcher on a cron token followed by a
space. -/
theorem matchReps_succ_cons (n : Nat) (t l : List Char)
    (hct : CronTokB t = true) :
    matchReps (n + 1) (t ++ ' ' :: l)
      = match matchReps n l with
        | some (c, r) => some (t ++ ' ' :: c, r)
        | none => none := by
  obtain ⟨htw, hdw⟩ := takeWhile_append_spec isCronChar t ' ' l
    (cronTok_all t hct) isCron_space
  have hne : t.isEmpty = false := by
    cases t with
    | nil => simp [CronTokB] at hct
    | cons a b => rfl
  simp only [matchReps, htw, hdw, hne]
  rfl

/-- Completeness of the repetition matcher on a space-interleaved input of
cron tokens. -/
theorem matchReps_complete (toks : List (List Char)) :
    ∀ rest, (∀ t ∈ toks, CronTokB t = true) →
      matchReps toks.length (toks.foldr (fun t acc => t ++ ' ' :: acc) rest)
        = some (toks.foldr (fun t acc => t ++ ' ' :: acc) [], rest) := by
  induction toks with
  | nil => intro rest h; simp [matchReps]
  | cons t ts ih =>
    intro rest h
    have hct := h t (List.mem_cons_self t ts)
    have hts := fun x hx => h x (List.mem_cons_of_mem t hx)
    simp only [List.length_cons, List.foldr_cons]
    rw [matchReps_succ_cons ts.length t _ hct, ih rest hts]

/-- Structure of a successful final-token match. -/
theorem matchFinal_some_spec (s f : List Char) (h : matchFinal s = some f) :
    CronTokB f = true ∧ s = f ++ s.dropWhile isCronChar := by
  unfold matchFinal at h
  by_cases he : (s.takeWhile isCronChar).isEmpty
  · rw [if_pos he] at h; cases h
  · rw [if_neg he] at h
    obtain rfl := Option.some.inj h
    constructor
    · refine cronTok_intro _ ?_ (fun ch hch => List.mem_takeWhile_imp hch)
      intro hnil
      rw [hnil] at he
      exact he rfl
    · exact (List.takeWhile_append_dropWhile (p := isCronChar) (l := s)).symm

/-- The final-token matcher succeeds exactly on inputs starting with a
cron character. -/
theorem matchFinal_cons_cron (c : Char) (r : List Char)
    (h : isCronChar c = true) : ∃ f, matchFinal (c :: r) = some f := by
  refine ⟨(c :: r).takeWhile isCronChar, ?_⟩
  unfold matchFinal
  rw [if_neg ?_]
  simp [List.takeWhile_cons, h]

/-- A successful final-token match means the input starts with a cron
character. -/
theorem matchFinal_some_head (s f : List Char) (h : matchFinal s = some f) :
    ∃ c rest, s = c :: rest ∧ isCronChar c = true := by
  obtain ⟨hct, hs⟩ := matchFinal_some_spec s f h
  cases hf : f with
  | nil => exact absurd hf (cronTok_ne_nil f hct)
  | cons c f2 =>
    refine ⟨c, f2 ++ s.dropWhile isCronChar, ?_, ?_⟩
    · conv_lhs => rw [hs, hf]
      simp
    · exact cronTok_all f hct c (by rw [hf]; exact List.mem_cons_self c f2)

/-- Structure of a match made of four repetitions plus a final token:
the position has the match shape and the match[0] is a space join of five
cron tokens. -/
theorem matchAt4_spec (s c4 r4 f : List Char)
    (h4 : matchReps 4 s = some (c4, r4)) (hf : matchFinal r4 = some f) :
    MatchShape s ∧ ∃ toks, toks.length = 5 ∧
      (∀ t ∈ toks, CronTokB t = true) ∧ c4 ++ f = sjoin toks := by
  obtain ⟨toks, hlen, hall, hc, hs⟩ := matchReps_sound 4 s c4 r4 h4
  obtain ⟨hcf, hr4⟩ := matchFinal_some_spec r4 f hf
  obtain ⟨ch, rest, hr4c, hch⟩ := matchFinal_some_head r4 f hf
  obtain ⟨t1, t2, t3, t4, rfl⟩ := list_len_four toks hlen
  constructor
  · refine ⟨t1, t2, t3, t4, ch, rest, ?_, ?_, ?_, ?_, hch, ?_⟩
    · exact hall t1 (by simp)
    · exact hall t2 (by simp)
    · exact hall t3 (by simp)
    · exact hall t4 (by simp)
    · rw [hs, hc, hr4c]
      simp
  · refine ⟨[t1, t2, t3, t4, f], rfl, ?_, ?_⟩
    · intro t ht
      simp only [List.mem_cons, List.not_mem_nil, or_false] at ht
      rcases ht with rfl | rfl | rfl | rfl | rfl
      · exact hall t (by simp)
      · exact hall t (by simp)
      · exact hall t (by simp)
      · exact hall t (by simp)
      · exact hcf
    · rw [hc, show ([t1, t2, t3, t4, f] : List (List Char))
            = [t1, t2, t3, t4] ++ [f] from rfl, ← foldr_sjoin]

/-- Structure of a match made of five repetitions plus a final token. -/
theorem matchAt5_spec (s c5 r5 f : List Char)
    (h5 : matchReps 5 s = some (c5, r5)) (hf : matchFinal r5 = some f) :
    MatchShape s ∧ ∃ toks, toks.length = 6 ∧
      (∀ t ∈ toks, CronTokB t = true) ∧ c5 ++ f = sjoin toks := by
  obtain ⟨toks, hlen, hall, hc, hs⟩ := matchReps_sound 5 s c5 r5 h5
  obtain ⟨hcf, hr5⟩ := matchFinal_some_spec r5 f hf
  obtain ⟨t1, t2, t3, t4, t5, rfl⟩ := list_len_five toks hlen
  constructor
  · obtain ⟨ch, t5r, ht5⟩ : ∃ ch t5r, t5 = ch :: t5r := by
      cases t5 with
      | nil =>
        have hx := hall [] (by simp)
        simp [CronTokB] at hx
      | cons a b => exact ⟨a, b, rfl⟩
    refine ⟨t1, t2, t3, t4, ch, t5r ++ ' ' :: r5, ?_, ?_, ?_, ?_, ?_, ?_⟩
    · exact hall t1 (by simp)
    · exact hall t2 (by simp)
    · exact hall t3 (by simp)
    · exact hall t4 (by simp)
    · exact cronTok_all t5 (hall t5 (by simp)) ch (by rw [ht5]; simp)
    · rw [hs, hc, ht5]
      simp
  · refine ⟨[t1, t2, t3, t4, t5, f], rfl, ?_, ?_⟩
    · intro t ht
      simp only [List.mem_cons, List.not_mem_nil, or_false] at ht
      rcases ht with rfl | rfl | rfl | rfl | rfl | rfl
      · exact hall t (by simp)
      · exact hall t (by simp)
      · exact hall t (by simp)
      · exact hall t (by simp)
      · exact hall t (by simp)
      · exact hcf
    · rw [hc, show ([t1, t2, t3, t4, t5, f] : List (List Char))
            = [t1, t2, t3, t4, t5] ++ [f] from rfl, ← foldr_sjoin]

/-- A successful `matchAt` witnesses the match shape and returns a space
join of five or six cron tokens. -/
theorem matchAt_some_spec (s m : List Char) (h : matchAt s = some m) :
    MatchShape s ∧ ∃ toks, (toks.length = 5 ∨ toks.length = 6) ∧
      (∀ t ∈ toks, CronTokB t = true) ∧ m = sjoin toks := by
  unfold matchAt at h
  split at h
  · rename_i c5 r5 h5
    split at h
    · rename_i f hf
      obtain rfl := Option.some.inj h
      obtain ⟨hsh, toks, hlen, hall, hm⟩ := matchAt5_spec s c5 r5 f h5 hf
      exact ⟨hsh, toks, Or.inr hlen, hall, hm⟩
    · split at h
      · rename_i c4 r4 h4
        split at h
        · rename_i f hf
          obtain rfl := Option.some.inj h
          obtain ⟨hsh, toks, hlen, hall, hm⟩ := matchAt4_spec s c4 r4 f h4 hf
          exact ⟨hsh, toks, Or.inl hlen, hall, hm⟩
        · cases h
      · cases h
  · split at h
    · rename_i c4 r4 h4
      split at h
      · rename_i f hf
        obtain rfl := Option.some.inj h
        obtain ⟨hsh, toks, hlen, hall, hm⟩ := matchAt4_spec s c4 r4 f h4 hf
        exact ⟨hsh, toks, Or.inl hlen, hall, hm⟩
      · cases h
    · cases h

/-- The match shape guarantees a successful `matchAt`. -/
theorem matchAt_some_of_shape (s : List Char) (h : MatchShape s) :
    ∃ m, matchAt s = some m := by
  obtain ⟨t1, t2, t3, t4, ch, rest, h1, h2, h3, h4, hch, hs⟩ := h
  have hall : ∀ t ∈ [t1, t2, t3, t4], CronTokB t = true := by
    intro t ht
    simp only [List.mem_cons, List.not_mem_nil, or_false] at ht
    rcases ht with rfl | rfl | rfl | rfl
    · exact h1
    · exact h2
    · exact h3
    · exact h4
  have h4r : matchReps 4 s
      = some (([t1, t2, t3, t4] : List (List Char)).foldr
          (fun t acc => t ++ ' ' :: acc) [], ch :: rest) := by
    have := matchReps_complete [t1, t2, t3, t4] (ch :: rest) hall
    simpa [hs] using this
  obtain ⟨f, hf⟩ := matchFinal_cons_cron ch rest hch
  unfold matchAt
  cases h5 : matchReps 5 s with
  | some pr =>
    obtain ⟨c5, r5⟩ := pr
    simp only [h5]
    cases hf5 : matchFinal r5 with
    | some g =>
      simp only [hf5]
      exact ⟨c5 ++ g, rfl⟩
    | none =>
      simp only [hf5, h4r, hf]
      exact ⟨_, rfl⟩
  | none =>
    simp only [h5, h4r, hf]
    exact ⟨_, rfl⟩

/-- The split worker passes over a block of non-whitespace characters,
accumulating them. -/
theorem splitWsAcc_nonws (t : List Char) (ht : ∀ c ∈ t, jsWhitespace c = false) :
    ∀ rest acc, splitWsAcc (t ++ rest) acc = splitWsAcc rest (t.reverse ++ acc) := by
  induction t with
  | nil => intro rest acc; simp
  | cons a t ih =>
    intro rest acc
    have ha : jsWhitespace a = false := ht a (List.mem_cons_self a t)
    have ih2 := ih (fun c hc => ht c (List.mem_cons_of_mem a hc)) rest (a :: acc)
    simp [splitWsAcc, ha, ih2]

/-- Splitting a space join of cron tokens on whitespace recovers the
tokens. -/
theorem splitWs_sjoin (toks : List (List Char)) (hne : toks ≠ [])
    (hall : ∀ t ∈ toks, CronTokB t = true) : splitWs (sjoin toks) = toks := by
  induction toks with
  | nil => exact absurd rfl hne
  | cons t ts ih =>
    have hct := hall t (List.mem_cons_self t ts)
    have htall : ∀ c ∈ t, jsWhitespace c = false :=
      fun c hc => cron_not_ws c (cronTok_all t hct c hc)
    have htr : t.reverse.isEmpty = false := by
      cases ht : t.reverse with
      | nil =>
        exact absurd (by simpa using congrArg List.reverse ht)
          (cronTok_ne_nil t hct)
      | cons a b => rfl
    cases ts with
    | nil =>
      show splitWsAcc (sjoin [t]) [] = [t]
      have h1 : sjoin [t] = t ++ [] := by simp [sjoin]
      rw [h1, splitWsAcc_nonws t htall [] []]
      simp [splitWsAcc, htr]
    | cons t2 ts2 =>
      have hts : ∀ x ∈ t2 :: ts2, CronTokB x = true :=
        fun x hx => hall x (List.mem_cons_of_mem t hx)
      have ihr := ih (by simp) hts
      show splitWsAcc (sjoin (t :: t2 :: ts2)) [] = t :: t2 :: ts2
      rw [sjoin_cons_ne t (t2 :: ts2) (by simp),
        splitWsAcc_nonws t htall (' ' :: sjoin (t2 :: ts2)) []]
      have hws : jsWhitespace ' ' = true := by decide
      simp only [splitWsAcc, hws, if_pos, List.append_nil, htr]
      rw [if_neg (by simp [htr])]
      rw [List.reverse_reverse]
      exact congrArg (fun l => t :: l) ihr

/-- The first character of a cron-token space join is a cron character. -/
theorem sjoin_head_cron (toks : List (List Char)) (hne : toks ≠ [])
    (hall : ∀ t ∈ toks, CronTokB t = true) :
    ∃ c rest, sjoin toks = c :: rest ∧ isCronChar c = true := by
  cases toks with
  | nil => exact absurd rfl hne
  | cons t ts =>
    have hct := hall t (List.mem_cons_self t ts)
    obtain ⟨c, t2, ht⟩ : ∃ c t2, t = c :: t2 := by
      cases t with
      | nil => simp [CronTokB] at hct
      | cons a b => exact ⟨a, b, rfl⟩
    have hc : isCronChar c = true :=
      cronTok_all t hct c (by rw [ht]; exact List.mem_cons_self c t2)
    cases ts with
    | nil => exact ⟨c, t2, by simp [sjoin, ht], hc⟩
    | cons t3 ts3 =>
      refine ⟨c, t2 ++ ' ' :: sjoin (t3 :: ts3), ?_, hc⟩
      rw [sjoin_cons_ne t (t3 :: ts3) (by simp), ht]
      simp

/-- The last character of a cron-token space join is a cron character. -/
theorem sjoin_last_cron (toks : List (List Char)) (hne : toks ≠ [])
    (hall : ∀ t ∈ toks, CronTokB t = true) :
    ∃ c, (sjoin toks).getLast? = some c ∧ isCronChar c = true := by
  induction toks with
  | nil => exact absurd rfl hne
  | cons t ts ih =>
    have hct := hall t (List.mem_cons_self t ts)
    cases ts with
    | nil =>
      obtain ⟨c, hc⟩ : ∃ c, t.getLast? = some c := by
        cases ht : t.getLast? with
        | none =>
          rw [List.getLast?_eq_none_iff] at ht
          exact absurd ht (cronTok_ne_nil t hct)
        | some c => exact ⟨c, rfl⟩
      refine ⟨c, by simpa [sjoin] using hc, ?_⟩
      exact cronTok_all t hct c
        (List.mem_of_mem_getLast? (by rw [hc]; rfl))
    | cons t2 ts2 =>
      have hts : ∀ x ∈ t2 :: ts2, CronTokB x = true :=
        fun x hx => hall x (List.mem_cons_of_mem t hx)
      obtain ⟨c, hc, hcron⟩ := ih (by simp) hts
      refine ⟨c, ?_, hcron⟩
      rw [sjoin_cons_ne t (t2 :: ts2) (by simp)]
      rw [List.getLast?_append_of_ne_nil]
      · rw [show (' ' :: sjoin (t2 :: ts2)).getLast? = (sjoin (t2 :: ts2)).getLast?
            from ?_]
        · exact hc
        · cases hsj : sjoin (t2 :: ts2) with
          | nil => rw [hsj] at hc; cases hc
          | cons a b => rw [List.getLast?_cons_cons]
      · simp

/-- Trimming a cron-token space join is the identity. -/
theorem trim_sjoin (toks : List (List Char)) (hne : toks ≠ [])
    (hall : ∀ t ∈ toks, CronTokB t = true) :
    jsTrimList (sjoin toks) = sjoin toks := by
  obtain ⟨c, rest, hcons, hc⟩ := sjoin_head_cron toks hne hall
  obtain ⟨d, hd, hdcron⟩ := sjoin_last_cron toks hne hall
  have h1 : (sjoin toks).dropWhile jsWhitespace = sjoin toks := by
    rw [hcons, List.dropWhile_cons, cron_not_ws c hc]
    simp
  have h2 : (sjoin toks).reverse.dropWhile jsWhitespace = (sjoin toks).reverse := by
    cases hrev : (sjoin toks).reverse with
    | nil => rfl
    | cons a b =>
      have : (sjoin toks).getLast? = some a := by
        rw [← List.head?_reverse, hrev]
        rfl
      rw [this] at hd
      obtain rfl := Option.some.inj hd
      rw [List.dropWhile_cons, cron_not_ws _ hdcron]
      simp
  unfold jsTrimList
  rw [h1, h2, List.reverse_reverse]

/-- `firstMatch` fails exactly when no suffix position matches. -/
theorem firstMatch_none_iff (s : List Char) :
    firstMatch s = none ↔ ∀ pre suf, s = pre ++ suf → matchAt suf = none := by
  induction s with
  | nil =>
    constructor
    · intro _ pre suf h
      obtain ⟨rfl, rfl⟩ := List.append_eq_nil.mp h.symm
      rfl
    · intro _
      rfl
  | cons c rest ih =>
    cases hm : matchAt (c :: rest) with
    | some m =>
      constructor
      · intro h
        simp [firstMatch, hm] at h
      · intro h
        have := h [] (c :: rest) rfl
        rw [hm] at this
        cases this
    | none =>
      constructor
      · intro h pre suf hps
        have h2 : firstMatch rest = none := by
          simpa [firstMatch, hm] using h
        cases pre with
        | nil =>
          simp only [List.nil_append] at hps
          rw [← hps]
          exact hm
        | cons c2 pre2 =>
          simp only [List.cons_append, List.cons.injEq] at hps
          exact (ih.mp h2) pre2 suf hps.2
      · intro h
        have h2 : ∀ pre suf, rest = pre ++ suf → matchAt suf = none := by
          intro pre suf hps
          exact h (c :: pre) suf (by rw [hps]; rfl)
        simp [firstMatch, hm, ih.mpr h2]

/-- A successful `firstMatch` happens at some split of the input. -/
theorem firstMatch_some_decomp (s m : List Char) (h : firstMatch s = some m) :
    ∃ pre suf, s = pre ++ suf ∧ matchAt suf = some m := by
  induction s with
  | nil => cases h
  | cons c rest ih =>
    cases hm : matchAt (c :: rest) with
    | some m2 =>
      have : m2 = m := by simpa [firstMatch, hm] using h
      exact ⟨[], c :: rest, rfl, by rw [hm, this]⟩
    | none =>
      have h2 : firstMatch rest = some m := by simpa [firstMatch, hm] using h
      obtain ⟨pre, suf, hps, hma⟩ := ih h2
      exact ⟨c :: pre, suf, by rw [hps]; rfl, hma⟩

/-- Whenever the regex matches, the extractor's trim/split/count pipeline
returns the match's 5 tokens, or drops the first of its 6. -/
theorem extract_of_firstMatch (content : String) (m : List Char)
    (h : firstMatch content.toList = some m) :
    ∃ toks, (toks.length = 5 ∨ toks.length = 6) ∧
      (∀ t ∈ toks, CronTokB t = true) ∧ m = sjoin toks ∧
      extractCronFromContent content
        = some (String.mk (sjoin (if toks.length = 6 then toks.drop 1 else toks))) := by
  obtain ⟨pre, suf, hps, hma⟩ := firstMatch_some_decomp _ m h
  obtain ⟨hsh, toks, hlen, hall, hm⟩ := matchAt_some_spec suf m hma
  have hne : toks ≠ [] := by
    intro hx
    subst hx
    rcases hlen with h5 | h6
    · cases h5
    · cases h6
  have htrim : jsTrimList m = m := by
    rw [hm]
    exact trim_sjoin toks hne hall
  have hsplit : splitWs (jsTrimList m) = toks := by
    rw [htrim, hm]
    exact splitWs_sjoin toks hne hall
  subst hm
  refine ⟨toks, hlen, hall, rfl, ?_⟩
  have hd : firstMatch content.data = some (sjoin toks) := h
  rw [htrim] at hsplit
  rcases hlen with h5 | h6
  · simp [extractCronFromContent, hd, htrim, hsplit, h5]
  · simp [extractCronFromContent, hd, htrim, hsplit, h6]

end Lemmas

/-- C4 (amended): the Cron Extractor returns the leftmost match of the
pattern "four non-empty runs of cron characters, each terminated by one
literal space, then at least one more cron character" — so the separator
is a single space (not arbitrary whitespace), the first field may begin in
the middle of a word, and the last field may be the leading cron run of a
word.  A successful match always splits into exactly 5 or 6 cron fields;
with 6 the first (seconds) field is dropped and the remaining 5 are
returned, with 5 they are returned verbatim; with no match the extractor
returns nothing and session creation falls back to `0 0 * * *`. -/
theorem C4_cron_extractor (content : String) :
    (extractCronFromContent content = none ↔
      ¬ ∃ pre suf, content.toList = pre ++ suf ∧ MatchShape suf)
  ∧ (∀ m, firstMatch content.toList = some m →
      ∃ toks, (toks.length = 5 ∨ toks.length = 6) ∧
        (∀ t ∈ toks, CronTokB t = true) ∧ m = sjoin toks ∧
        extractCronFromContent content
          = some (String.mk (sjoin (if toks.length = 6 then toks.drop 1 else toks))))
  ∧ (∀ r, extractCronFromContent content = some r →
      ∃ toks, toks.length = 5 ∧ (∀ t ∈ toks, CronTokB t = true) ∧
        r = String.mk (sjoin toks))
  ∧ (∀ st uid fn, extractCronFromContent content = none →
      ((createSession st uid fn content).2.defaultParams).map TaskParams.schedule
        = some ("0 0 * * *")) := by
  refine ⟨?_, fun m hm => extract_of_firstMatch content m hm, ?_, ?_⟩
  · constructor
    · intro h hex
      obtain ⟨pre, suf, hps, hsh⟩ := hex
      obtain ⟨m0, hm0⟩ := matchAt_some_of_shape suf hsh
      cases hfm : firstMatch content.toList with
      | none =>
        have := (firstMatch_none_iff _).mp hfm pre suf hps
        rw [hm0] at this
        cases this
      | some m1 =>
        obtain ⟨toks, hlen, hall, hmm, hex2⟩ := extract_of_firstMatch content m1 hfm
        rw [hex2] at h
        cases h
    · intro hnex
      cases hfm : firstMatch content.toList with
      | none =>
        unfold extractCronFromContent
        rw [hfm]
      | some m1 =>
        exfalso
        obtain ⟨pre, suf, hps, hma⟩ := firstMatch_some_decomp _ m1 hfm
        exact hnex ⟨pre, suf, hps, (matchAt_some_spec suf m1 hma).1⟩
  · intro r hr
    cases hfm : firstMatch content.toList with
    | none =>
      unfold extractCronFromContent at hr
      rw [hfm] at hr
      cases hr
    | some m1 =>
      obtain ⟨toks, hlen, hall, hmm, hex2⟩ := extract_of_firstMatch content m1 hfm
      rw [hex2] at hr
      obtain rfl := Option.some.inj hr
      rcases hlen with h5 | h6
      · refine ⟨toks, h5, hall, ?_⟩
        simp [h5]
      · refine ⟨toks.drop 1, by simp [h6], ?_, ?_⟩
        · exact fun t ht => hall t (List.mem_of_mem_drop ht)
        · simp [h6]
  · intro st uid fn h
    simp [createSession, h]

/-- C4 (witness): the sample content yields a 5-field match returned
verbatim, and content without any match falls back to the fixed daily
schedule in `createSession`. -/
theorem C4_witness :
    (∃ toks, (toks.length = 5 ∨ toks.length = 6) ∧
      (∀ t ∈ toks, CronTokB t = true) ∧
      ("0 */5 * * *").toList = sjoin toks ∧
      extractCronFromContent ("0 */5 * * * node foo")
        = some (String.mk (sjoin (if toks.length = 6 then toks.drop 1 else toks))))
  ∧ ((createSession emptySM 1 ("f.py") ("hello")).2.defaultParams).map
      TaskParams.schedule = some ("0 0 * * *") :=
  ⟨(C4_cron_extractor ("0 */5 * * * node foo")).2.1 (("0 */5 * * *").toList) rfl,
   (C4_cron_extractor ("hello")).2.2.2 emptySM 1 ("f.py") rfl⟩

/-- C4 (counterexample): the claim reads the fields as whitespace-separated
tokens of the text; the code requires single spaces and can start a field
mid-word.  Five tab-separated cron tokens yield nothing, while `x1 2 3 4 5`
— whose whitespace tokens include the non-cron `x1` — yields a match. -/
theorem C4_cex_whitespace_vs_space :
    claimCronRunExists ("0\t1\t2\t3\t4") = true
  ∧ extractCronFromContent ("0\t1\t2\t3\t4") = none
  ∧ claimCronRunExists ("x1 2 3 4 5") = false
  ∧ extractCronFromContent ("x1 2 3 4 5") = some ("1 2 3 4 5") :=
  ⟨rfl, rfl, rfl, rfl⟩

/-- C1: the source's `createSession` replaces an already-sessioned user's
data but does not cancel the old session's armed expiry timer: after user
7 uploads `a.py`, arms the 120-second expiry, and uploads `b.py`, the old
timer (id 0) is still pending while the new session records no timer, and
firing that orphaned timer deletes the replacement session — contradicting
the claim that no timer armed for the old session stays pending. -/
theorem C1_createSession_leaves_orphaned_timer :
    (createSession stArmed 7 ("b.py") ("y")).1.pending
      = [{ id := 0, userId := 7, delayMs := 120000 }]
  ∧ ((mapGet (createSession stArmed 7 ("b.py") ("y")).1.sessions 7).map
      FileUploadSession.fileName) = some ("b.py")
  ∧ ((mapGet (createSession stArmed 7 ("b.py") ("y")).1.sessions 7).map
      FileUploadSession.timeoutId) = some none
  ∧ mapGet (fireTimer (createSession stArmed 7 ("b.py") ("y")).1 0).1.sessions 7
      = none :=
  ⟨rfl, rfl, rfl, rfl⟩

/-- C5 (amended): `createSession` builds a session in stage `uploaded`
whose `defaultParams` are: name = the part of the filename before the
first dot (not before the last dot), command = `task ` followed by the
full filename, schedule = the extractor's result or the fallback
`0 0 * * *`; and the `demo.py` scenario produces exactly the advertised
parameters. -/
theorem C5_createSession_defaults (st : SMState) (uid : Nat) (fn content : String) :
    (createSession st uid fn content).2.stage = Stage.uploaded
  ∧ (createSession st uid fn content).2.defaultParams = some
      { name := String.mk (fn.toList.takeWhile (fun c => c ≠ '.'))
        command := "task " ++ fn
        schedule := (extractCronFromContent content).getD ("0 0 * * *") }
  ∧ mapGet (createSession st uid fn content).1.sessions uid
      = some (createSession st uid fn content).2
  ∧ (createSession emptySM 1 ("demo.py") ("0 0 * * * python demo.py")).2.defaultParams
      = some { name := "demo", command := "task demo.py", schedule := "0 0 * * *" } := by
  refine ⟨rfl, ?_, ?_, by decide⟩
  · have h := jsSplitChar_headD '.' fn.toList
    simp only [ne_eq, decide_not] at h
    simp only [createSession, ← List.headD_eq_head?_getD, Option.some.injEq]
    rw [show (fun c => decide (c ≠ '.')) = (fun c => !decide (c = '.')) from
          funext fun c => by simp [decide_not], ← h]
  · simp [createSession, mapGet_mapSet_self]

/-- C5 (counterexample): for the accepted file `a.b.py` the source sets
`name` to `a`, the part before the first dot, while the claim's "filename
without its extension" is `a.b`. -/
theorem C5_cex_first_dot :
    ((createSession emptySM 1 ("a.b.py") ("")).2.defaultParams).map TaskParams.name
      = some ("a")
  ∧ ((createSession emptySM 1 ("a.b.py") ("")).2.defaultParams).map TaskParams.name
      ≠ some (fileNameWithoutExtension ("a.b.py")) := by
  exact ⟨rfl, by decide⟩

/-- C8: `deleteSession` is idempotent and total: deleting an absent
session changes nothing, deleting twice equals deleting once, the session
is gone afterwards, and deleting an existing session with an armed timer
removes exactly that timer from the pending set. -/
theorem C8_deleteSession_idempotent (st : SMState) (uid : Nat) :
    (mapGet st.sessions uid = none → deleteSession st uid = st)
  ∧ deleteSession (deleteSession st uid) uid = deleteSession st uid
  ∧ mapGet (deleteSession st uid).sessions uid = none
  ∧ (∀ s tid, mapGet st.sessions uid = some s → s.timeoutId = some tid →
      (deleteSession st uid).pending
        = st.pending.filter (fun tm => tm.id != tid)) := by
  refine ⟨deleteSession_absent st uid, ?_, mapGet_mapDelete_self _ _, ?_⟩
  · exact deleteSession_absent _ uid (mapGet_mapDelete_self _ _)
  · intro s tid hs ht
    simp [deleteSession, hs, ht]

/-- C8 (witness): concrete instances of the idempotence and
timer-cancellation conclusions. -/
theorem C8_witness :
    deleteSession stArmed 9 = stArmed
  ∧ (deleteSession stArmed 7).pending
      = stArmed.pending.filter (fun tm => tm.id != 0) :=
  ⟨(C8_deleteSession_idempotent stArmed 9).1 rfl,
   (C8_deleteSession_idempotent stArmed 7).2.2.2 sessArmed 0 rfl rfl⟩

/-- C10: pressing confirm or edit with no stored candidate parameters
only produces the fixed error reply and changes nothing; and confirm with
a stored candidate that fails the non-empty re-validation also only
replies with the validation error, with no backend call and no state
change. -/
theorem C10_confirm_edit_guards (be : Backend) (st : SMState) (uid : Nat)
    (s : FileUploadSession) :
    (s.modifiedParams = none →
      handleConfirmParams be st uid s = (st, [Effect.reply msgNoModified])
      ∧ handleEditParams st uid s = (st, [Effect.reply msgNoModified]))
  ∧ (∀ params, s.modifiedParams = some params →
      (fieldTruthy params ("name") && fieldTruthy params ("command") &&
        fieldTruthy params ("schedule")) = false →
      handleConfirmParams be st uid s = (st, [Effect.reply msgBadParams])) := by
  constructor
  · intro h
    exact ⟨by simp [handleConfirmParams, h], by simp [handleEditParams, h]⟩
  · intro params hp hf
    simp [handleConfirmParams, hp, hf]

/-- C10 (witness): the guards at concrete out-of-order inputs. -/
theorem C10_witness :
    handleConfirmParams beOk stConfirm 7 sessNoCand
      = (stConfirm, [Effect.reply msgNoModified])
  ∧ handleEditParams stConfirm 7 sessNoCand
      = (stConfirm, [Effect.reply msgNoModified])
  ∧ handleConfirmParams beOk stConfirm 7 sessBadCand
      = (stConfirm, [Effect.reply msgBadParams]) :=
  ⟨((C10_confirm_edit_guards beOk stConfirm 7 sessNoCand).1 rfl).1,
   ((C10_confirm_edit_guards beOk stConfirm 7 sessNoCand).1 rfl).2,
   (C10_confirm_edit_guards beOk stConfirm 7 sessBadCand).2 objBad rfl rfl⟩

/-- C2 (amended): when the script upload or the job registration throws,
the catch block surfaces the underlying error message to the user, but
the session is not deleted — the store (and the whole state) is exactly
as before; deletion happens only when every backend call succeeds. -/
theorem C2_backend_failure_keeps_session (be : Backend) (st : SMState)
    (uid : Nat) (s : FileUploadSession) (e : String) :
    (be.uploadError = some e →
      handleUploadOnly be st uid s
        = (st, [Effect.reply msgUploading,
                Effect.uploadFile s.fileName s.fileContent,
                Effect.reply (msgUploadFail e)]))
  ∧ (∀ p, s.defaultParams = some p → be.uploadError = some e →
      handleModifyParamsNo be st uid s
        = (st, [Effect.reply msgUploading,
                Effect.uploadFile s.fileName s.fileContent,
                Effect.reply (msgOpFail e)]))
  ∧ (∀ p, s.defaultParams = some p → be.uploadError = none →
      be.cronError = some e →
      handleModifyParamsNo be st uid s
        = (st, [Effect.reply msgUploading,
                Effect.uploadFile s.fileName s.fileContent,
                Effect.reply msgCreatingJob,
                Effect.createCronJob (Json.jstr p.name) (Json.jstr p.command)
                  (Json.jstr p.schedule),
                Effect.reply (msgOpFail e)]))
  ∧ (∀ params, s.modifiedParams = some params →
      (fieldTruthy params ("name") && fieldTruthy params ("command") &&
        fieldTruthy params ("schedule")) = true →
      be.uploadError = some e →
      handleConfirmParams be st uid s
        = (st, [Effect.reply msgUploading,
                Effect.uploadFile s.fileName s.fileContent,
                Effect.reply (msgOpFail e)]))
  ∧ (∀ params, s.modifiedParams = some params →
      (fieldTruthy params ("name") && fieldTruthy params ("command") &&
        fieldTruthy params ("schedule")) = true →
      be.uploadError = none → be.cronError = some e →
      handleConfirmParams be st uid s
        = (st, [Effect.reply msgUploading,
                Effect.uploadFile s.fileName s.fileContent,
                Effect.reply msgCreatingJob,
                Effect.createCronJob (jsField params ("name"))
                  (jsField params ("command")) (jsField params ("schedule")),
                Effect.reply (msgOpFail e)])) := by
  refine ⟨?_, ?_, ?_, ?_, ?_⟩
  · intro h
    simp [handleUploadOnly, h]
  · intro p hp h
    simp [handleModifyParamsNo, hp, h]
  · intro p hp h1 h2
    simp [handleModifyParamsNo, hp, h1, h2]
  · intro params hp hf h
    simp [handleConfirmParams, hp, hf, h]
  · intro params hp hf h1 h2
    simp [handleConfirmParams, hp, hf, h1, h2]

/-- C2 (witness): concrete backend failures on each completing path leave
the state untouched while surfacing the message. -/
theorem C2_witness :
    handleUploadOnly beFailUpload stArmed 7 sessArmed
      = (stArmed, [Effect.reply msgUploading, Effect.uploadFile ("a.py") ("x"),
                   Effect.reply (msgUploadFail ("boom"))])
  ∧ handleModifyParamsNo beFailCron stArmed 7 sessArmed
      = (stArmed, [Effect.reply msgUploading, Effect.uploadFile ("a.py") ("x"),
                   Effect.reply msgCreatingJob,
                   Effect.createCronJob (Json.jstr ("a")) (Json.jstr ("task a.py"))
                     (Json.jstr ("0 0 * * *")),
                   Effect.reply (msgOpFail ("bad cron"))])
  ∧ handleConfirmParams beFailUpload stConfirm 7 sessConfirm
      = (stConfirm, [Effect.reply msgUploading, Effect.uploadFile ("demo.py") (""),
                     Effect.reply (msgOpFail ("boom"))]) :=
  ⟨(C2_backend_failure_keeps_session beFailUpload stArmed 7 sessArmed ("boom")).1 rfl,
   (C2_backend_failure_keeps_session beFailCron stArmed 7 sessArmed ("bad cron")).2.2.1
     { name := "a", command := "task a.py", schedule := "0 0 * * *" } rfl rfl rfl,
   (C2_backend_failure_keeps_session beFailUpload stConfirm 7 sessConfirm ("boom")).2.2.2.1
     objW rfl rfl rfl⟩

/-- C2 (counterexample): with a throwing upload, the upload-only handler
leaves the user's session in the store (the claim asserts it would be
deleted) while surfacing the error. -/
theorem C2_cex_session_survives_failure :
    mapGet (handleUploadOnly beFailUpload stArmed 7 sessArmed).1.sessions 7
      = some sessArmed
  ∧ (handleUploadOnly beFailUpload stArmed 7 sessArmed).2
      = [Effect.reply msgUploading, Effect.uploadFile ("a.py") ("x"),
         Effect.reply (msgUploadFail ("boom"))] :=
  ⟨rfl, rfl⟩

/-- C3: in stage `modify_params`, a text whose trim is brace-shaped,
parses, and has truthy `name`, `command`, `schedule` fields moves the
session to stage `confirm_params` with `modifiedParams` set to exactly the
parsed object, and asks for confirmation. -/
theorem C3_accept_valid_params (st : SMState) (uid : Nat) (text : String)
    (session : FileUploadSession) (params : Json)
    (hu : uid ≠ 0)
    (hs : mapGet st.sessions uid = some session)
    (hstage : session.stage = Stage.modify_params)
    (ht : text ≠ "")
    (hb : (startsWithChar (jsTrim text) braceOpen &&
           endsWithChar (jsTrim text) braceClose) = true)
    (hp : jsonParse (jsTrim text) = some params)
    (hf : (fieldTruthy params ("name") && fieldTruthy params ("command") &&
           fieldTruthy params ("schedule")) = true) :
    handleJsonParams st uid text
      = (updateSession st uid
           { stage := some Stage.confirm_params, modifiedParams := some params },
         [Effect.replyParams msgConfirmAsk params], true)
  ∧ mapGet (handleJsonParams st uid text).1.sessions uid
      = some { session with stage := Stage.confirm_params,
                            modifiedParams := some params } := by
  have h1 : handleJsonParams st uid text
      = (updateSession st uid
           { stage := some Stage.confirm_params, modifiedParams := some params },
         [Effect.replyParams msgConfirmAsk params], true) := by
    simp [handleJsonParams, hu, hs, hstage, ht, hb, hp, hf]
  refine ⟨h1, ?_⟩
  rw [h1]
  simp [updateSession, hs, mapGet_mapSet_self]

/-- C3 (witness): a concrete round trip for user 7. -/
theorem C3_witness :
    mapGet (handleJsonParams stModify 7
      (" \x7b\"name\":\"n\",\"command\":\"c\",\"schedule\":\"s\"\x7d ")).1.sessions 7
      = some { sessModify with stage := Stage.confirm_params,
                               modifiedParams := some objW } :=
  (C3_accept_valid_params stModify 7
    (" \x7b\"name\":\"n\",\"command\":\"c\",\"schedule\":\"s\"\x7d ")
    sessModify objW (by decide) rfl rfl (by decide) rfl rfl rfl).2

/-- C6: in stage `modify_params`, a brace-shaped text that parses but has
a falsy (missing or empty) required field only draws the fixed validation
reply; the handler returns `true` (consumed) and the state — stage,
stored session, and pending timers alike — is exactly unchanged. -/
theorem C6_reject_missing_fields (st : SMState) (uid : Nat) (text : String)
    (session : FileUploadSession) (params : Json)
    (hu : uid ≠ 0)
    (hs : mapGet st.sessions uid = some session)
    (hstage : session.stage = Stage.modify_params)
    (ht : text ≠ "")
    (hb : (startsWithChar (jsTrim text) braceOpen &&
           endsWithChar (jsTrim text) braceClose) = true)
    (hp : jsonParse (jsTrim text) = some params)
    (hf : (fieldTruthy params ("name") && fieldTruthy params ("command") &&
           fieldTruthy params ("schedule")) = false) :
    handleJsonParams st uid text = (st, [Effect.reply msgBadParams], true) := by
  simp [handleJsonParams, hu, hs, hstage, ht, hb, hp, hf]

/-- C6 (witness): the object `{"name":"x"}` (no `schedule`) is rejected
with the field message and nothing else changes. -/
theorem C6_witness :
    handleJsonParams stModify 7 (" \x7b\"name\":\"x\"\x7d ")
      = (stModify, [Effect.reply msgBadParams], true) :=
  C6_reject_missing_fields stModify 7 (" \x7b\"name\":\"x\"\x7d ") sessModify
    objBad (by decide) rfl rfl (by decide) rfl rfl rfl

/-- C9: in stage `modify_params`, a brace-shaped text that fails to parse
is silently not consumed — `handleJsonParams` returns `false` with no
reply and no state change — and `handleCommand` therefore falls through to
the ordinary command processor with the very same text. -/
theorem C9_unparseable_falls_through (st : SMState) (uid : Nat) (text : String)
    (session : FileUploadSession)
    (hu : uid ≠ 0)
    (hs : mapGet st.sessions uid = some session)
    (hstage : session.stage = Stage.modify_params)
    (ht : text ≠ "")
    (hb : (startsWithChar (jsTrim text) braceOpen &&
           endsWithChar (jsTrim text) braceClose) = true)
    (hp : jsonParse (jsTrim text) = none) :
    handleJsonParams st uid text = (st, [], false)
  ∧ handleCommand st uid text = (st, [Effect.ordinaryCommand text]) := by
  have h1 : handleJsonParams st uid text = (st, [], false) := by
    simp [handleJsonParams, hu, hs, hstage, ht, hb, hp]
  exact ⟨h1, by simp [handleCommand, h1]⟩

/-- C9 (witness): `{not json}` in stage `modify_params` is handed to the
ordinary command processor untouched. -/
theorem C9_witness :
    handleCommand stModify 7 ("\x7bnot json\x7d")
      = (stModify, [Effect.ordinaryCommand ("\x7bnot json\x7d")]) :=
  (C9_unparseable_falls_through stModify 7 ("\x7bnot json\x7d") sessModify
    (by decide) rfl rfl (by decide) rfl rfl).2

/-- C7: `setSessionTimeout` for a user with no session is a pure no-op;
for a user with a session (in a state whose timers are well-formed) it
first cancels the previously armed timer and then schedules the fresh
one, so that afterwards the user has exactly one pending expiry action and
the old timer id is pending nowhere. -/
theorem C7_setSessionTimeout_rearms (st : SMState) (uid d : Nat) :
    (mapGet st.sessions uid = none → setSessionTimeout st uid d = st)
  ∧ (∀ s, mapGet st.sessions uid = some s → WFb st = true →
      ((setSessionTimeout st uid d).pending.filter (fun tm => tm.userId == uid)
         = [{ id := st.nextTimerId, userId := uid, delayMs := d }])
      ∧ mapGet (setSessionTimeout st uid d).sessions uid
          = some { s with timeoutId := some st.nextTimerId }
      ∧ (∀ tid, s.timeoutId = some tid →
          ((setSessionTimeout st uid d).pending.all (fun tm => tm.id != tid))
            = true)) := by
  constructor
  · intro h
    simp [setSessionTimeout, h]
  · intro s hs hwf
    have hrec := WFb_pending_recorded st hwf
    have hslt := WFb_session_lt st hwf
    have hmem := mapGet_mem st.sessions uid s hs
    refine ⟨?_, by simp [setSessionTimeout, hs, mapGet_mapSet_self], ?_⟩
    · cases hto : s.timeoutId with
      | none =>
        have hnone : ∀ tm ∈ st.pending, ¬(tm.userId == uid) = true := by
          intro tm hm heq
          obtain ⟨s2, hg, hr⟩ := hrec tm hm
          have heq2 : tm.userId = uid := by simpa using heq
          rw [heq2, hs] at hg
          obtain rfl := Option.some.inj hg
          rw [hto] at hr
          cases hr
        simp only [setSessionTimeout, hs, hto, List.filter_append]
        rw [List.filter_eq_nil_iff.mpr hnone]
        simp
      | some tid0 =>
        have hnone : ∀ tm ∈ st.pending.filter (fun x => x.id != tid0),
            ¬(tm.userId == uid) = true := by
          intro tm hm heq
          obtain ⟨hm2, hne⟩ := List.mem_filter.mp hm
          obtain ⟨s2, hg, hr⟩ := hrec tm hm2
          have heq2 : tm.userId = uid := by simpa using heq
          rw [heq2, hs] at hg
          obtain rfl := Option.some.inj hg
          rw [hto] at hr
          obtain rfl := Option.some.inj hr
          simp at hne
        simp only [setSessionTimeout, hs, hto, List.filter_append]
        rw [List.filter_eq_nil_iff.mpr hnone]
        simp
    · intro tid htid
      have hlt : tid < st.nextTimerId := hslt (uid, s) hmem tid htid
      simp only [setSessionTimeout, hs, htid, List.all_append]
      rw [Bool.and_eq_true]
      refine ⟨?_, ?_⟩
      · rw [List.all_eq_true]
        intro tm hm
        exact (List.mem_filter.mp hm).2
      · simp only [List.all_cons, List.all_nil, Bool.and_true]
        simp only [bne_iff_ne, ne_eq, decide_eq_true_eq]
        omega

/-- C7 (witness): re-arming user 7's armed session yields exactly the new
timer, the old id 0 is gone; arming for session-less user 9 is a no-op. -/
theorem C7_witness :
    setSessionTimeout stModify 9 60000 = stModify
  ∧ (setSessionTimeout stArmed 7 60000).pending.filter (fun tm => tm.userId == 7)
      = [{ id := 1, userId := 7, delayMs := 60000 }]
  ∧ ((setSessionTimeout stArmed 7 60000).pending.all (fun tm => tm.id != 0))
      = true :=
  ⟨(C7_setSessionTimeout_rearms stModify 9 60000).1 rfl,
   ((C7_setSessionTimeout_rearms stArmed 7 60000).2 sessArmed rfl (by decide)).1,
   ((C7_setSessionTimeout_rearms stArmed 7 60000).2 sessArmed rfl (by decide)).2.2
     0 rfl⟩

end QinglongBot
